import Mathlib

/-!
Verification of the SwiftCart market-basket core (src/app.py).

The development shallow-embeds the data pipeline of `get_data` (column
renaming, dropping of incomplete records, basket pivot and binary
encoding) and `get_rules` (frequent-itemset mining and association-rule
derivation).  The mining code itself lives in the external `mlxtend`
library and is therefore modelled from the specification (doc comments
starting with `Modelled from the spec:`); everything else is translated
directly from `src/app.py`.
-/

namespace SwiftCart

/-! ## String utilities (embedding of the Python string operations used) -/

/-- ASCII lower-casing of one character, embedding `str.lower` on the
ASCII headers handled by the app. -/
def lowerChar (c : Char) : Char :=
  if 'A' ≤ c ∧ c ≤ 'Z' then Char.ofNat (c.toNat + 32) else c

/-- Whitespace test used by `str.strip`. -/
def isSpaceChar (c : Char) : Bool :=
  c == ' ' || c == '\t' || c == '\n' || c == '\r'

/-- Strip whitespace from both ends, embedding `str.strip`. -/
def trimChars (cs : List Char) : List Char :=
  ((cs.dropWhile isSpaceChar).reverse.dropWhile isSpaceChar).reverse

/-- Does the first list start with the second one? -/
def beginsWith : List Char → List Char → Bool
  | _, [] => true
  | [], _ :: _ => false
  | a :: as, b :: bs => a == b && beginsWith as bs

/-- Contiguous-substring test on character lists, embedding the Python
`tok in s` test on strings. -/
def hasSub : List Char → List Char → Bool
  | [], needle => needle.isEmpty
  | a :: as, needle => beginsWith (a :: as) needle || hasSub as needle

/-- Normalised header used in `get_data`: `col.strip().lower()`. -/
def normHeader (col : String) : List Char :=
  (trimChars col.toList).map lowerChar

/-- Token test against a normalised header. -/
def hasTok (c : List Char) (tok : String) : Bool :=
  hasSub c tok.toList

/-- Comma-join of a list of item names, embedding `', '.join(xs)`
(app.py lines 42-43). -/
def joinComma : List String → String
  | [] => ""
  | [a] => a
  | a :: b :: rest => a ++ ", " ++ joinComma (b :: rest)

/-! ## Transaction Normalizer (app.py lines 22-31) -/

/-- Scalar cell of a raw dataframe. -/
inductive Cell where
  | s (v : String)
  | n (v : Int)
deriving DecidableEq

/-- String image of a cell, used as a grouping key. -/
def cellStr : Cell → String
  | .s v => v
  | .n v => toString v

/-- Raw dataframe: a header list and rows of (column, optional cell)
pairs, a `none` cell standing for a missing value (NaN). -/
structure Frame where
  cols : List String
  rows : List (List (String × Option Cell))

/-- Column-renaming rule of `get_data` (app.py lines 23-29): each header
is stripped, lower-cased and matched by substring containment against
the fixed token table, in the if/elif order of the source; a header
matching no rule is kept unchanged. -/
def renameCol (col : String) : String :=
  let c := normHeader col
  if hasTok c "total" && hasTok c "value" then "Total_Basket_Value"
  else if hasTok c "product" && hasTok c "name" then "Product_Name"
  else if hasTok c "transaction" && hasTok c "id" then "Transaction_ID"
  else if hasTok c "category" then "Product_Category"
  else if hasTok c "day" && hasTok c "week" then "Day_of_Week"
  else col

/-- Rename every key of one row (`df.rename(columns=new_names)`). -/
def renameRow (row : List (String × Option Cell)) : List (String × Option Cell) :=
  row.map fun p => (renameCol p.1, p.2)

/-- Rename the whole frame. -/
def renameFrame (f : Frame) : Frame :=
  ⟨f.cols.map renameCol, f.rows.map renameRow⟩

/-- Cell of a row under a column name; `none` when the column is absent
from the row or holds a missing value. -/
def getCell (row : List (String × Option Cell)) (c : String) : Option Cell :=
  match row.find? fun p => p.1 == c with
  | some p => p.2
  | none => none

/-- Cleaned transaction record (one row of `df_clean`). -/
structure Rec where
  tid : String
  item : String
  qty : Int
deriving DecidableEq

/-- Quantity of a row: the `Quantity` cell when numeric, otherwise 0
(pandas sums missing values as 0). -/
def qtyOf (row : List (String × Option Cell)) : Int :=
  match getCell row "Quantity" with
  | some (.n v) => v
  | _ => 0

/-- Extraction of a cleaned record from a renamed row; `none` when the
transaction id or the item name is missing — such a row is dropped by
`df.dropna(subset=['Transaction_ID', 'Product_Name'])` (app.py line 31). -/
def extractRec (row : List (String × Option Cell)) : Option Rec :=
  match getCell row "Transaction_ID", getCell row "Product_Name" with
  | some tv, some iv => some ⟨cellStr tv, cellStr iv, qtyOf row⟩
  | some _, none => none
  | none, _ => none

/-- Cleaned record set of a renamed frame (`df_clean`): rows with a
missing transaction id or item name are silently dropped. -/
def cleanedRecs (f : Frame) : List Rec :=
  f.rows.filterMap extractRec

/-- Pipeline errors.  `inputSchema c` embeds the `KeyError` pandas
raises when the column `c` is absent (surfaced by the caller at app.py
lines 47-51); `invalidThreshold` is the threshold-validation error of
the specification. -/
inductive PipeError where
  | inputSchema (missingCol : String)
  | invalidThreshold
deriving DecidableEq

/-- Embedding of `get_data` up to the cleaned record set: rename the
columns, then fail exactly when a column required by
`dropna(subset=[...])` or by the `['Quantity']` selection is absent
(the pandas `KeyError`), else return the cleaned records. -/
def getDataE (f : Frame) : Except PipeError (List Rec) :=
  let f2 := renameFrame f
  if "Transaction_ID" ∈ f2.cols then
    if "Product_Name" ∈ f2.cols then
      if "Quantity" ∈ f2.cols then Except.ok (cleanedRecs f2)
      else Except.error (.inputSchema "Quantity")
    else Except.error (.inputSchema "Product_Name")
  else Except.error (.inputSchema "Transaction_ID")

/-! ## Basket Encoder (app.py lines 32-35) -/

/-- Distinct transaction ids, the row keys of the pivot. -/
def tidList (rs : List Rec) : List String :=
  (rs.map Rec.tid).dedup

/-- Distinct item names, the column universe of the pivot. -/
def itemList (rs : List Rec) : List String :=
  (rs.map Rec.item).dedup

/-- Sum of the quantities of the records of one (transaction, item)
group (`groupby(['Transaction_ID','Product_Name'])['Quantity'].sum()`). -/
def sumQty (rs : List Rec) (t i : String) : Int :=
  ((rs.filter fun r => r.tid == t && r.item == i).map Rec.qty).sum

/-- Group keys present in the input, in first-occurrence order. -/
def groupKeys (rs : List Rec) : List (String × String) :=
  (rs.map fun r => (r.tid, r.item)).dedup

/-- Grouped quantity sums: one entry per present (transaction, item)
pair. -/
def groupedSums (rs : List Rec) : List ((String × String) × Int) :=
  (groupKeys rs).map fun k => (k, sumQty rs k.1 k.2)

/-- Cell of the unstacked pivot after `fillna(0)`: the grouped sum when
the pair occurs in the input, else the filled 0. -/
def unstackCell (rs : List Rec) (t i : String) : Int :=
  match (groupedSums rs).find? fun p => p.1 == (t, i) with
  | some p => p.2
  | none => 0

/-- Binary encoding `applymap(lambda x: 1 if x > 0 else 0)`
(app.py line 35). -/
def basketCell (rs : List Rec) (t i : String) : Nat :=
  if 0 < unstackCell rs t i then 1 else 0

/-- Item set of one basket row: the columns of the dense matrix whose
encoded cell is 1. -/
def basketRowF (rs : List Rec) (t : String) : Finset String :=
  ((itemList rs).filter fun i => basketCell rs t i == 1).toFinset

/-- All basket rows, one per distinct transaction id. -/
def basketRows (rs : List Rec) : List (Finset String) :=
  (tidList rs).map (basketRowF rs)

/-! ## Itemset Miner

Modelled from the spec: the implementation of `apriori` called at
app.py line 40 lives in the external `mlxtend` library and is not part
of this repository, so the Miner is modelled from spec section 4.3. -/

/-- Support of an itemset: the fraction of transaction rows containing
every item of the itemset (spec section 3). -/
def support (txns : List (Finset String)) (I : Finset String) : ℚ :=
  (txns.countP fun t => decide (I ⊆ t)) / txns.length

/-- Modelled from the spec: level `k` of the level-wise Apriori search of
spec section 4.3 (missing from src/, implemented by `mlxtend.apriori`).
Level 1 keeps the frequent singletons; level `k+1` joins each frequent
`k`-itemset with one further universe item, discards every candidate
having an infrequent `k`-subset (the pruning rule), computes exact
support of the surviving candidates and keeps those meeting
`min_support`. -/
def aprioriLevel (U : Finset String) (txns : List (Finset String)) (ms : ℚ) :
    Nat → Finset (Finset String)
  | 0 => ∅
  | 1 => (U.image fun x => ({x} : Finset String)).filter fun I => ms ≤ support txns I
  | (k + 2) =>
    let L := aprioriLevel U txns ms (k + 1)
    ((L.biUnion fun A => (U \ A).image fun x => insert x A).filter
        fun C => (C.powerset.filter fun S => S.card = k + 1) ⊆ L).filter
      fun C => ms ≤ support txns C

/-- Modelled from the spec: the frequent-itemset set of spec section 4.3
(missing from src/, implemented by `mlxtend.apriori`): the union of the
levels; levels beyond the size of the item universe are empty, so the
union over the first `U.card` levels realises the run-until-empty loop. -/
def frequentItemsets (U : Finset String) (txns : List (Finset String)) (ms : ℚ) :
    Finset (Finset String) :=
  (Finset.range U.card).biUnion fun k => aprioriLevel U txns ms (k + 1)

/-- Miner output: each frequent itemset annotated with its exact
support value. -/
def minerOutput (U : Finset String) (txns : List (Finset String)) (ms : ℚ) :
    Finset (Finset String × ℚ) :=
  (frequentItemsets U txns ms).image fun I => (I, support txns I)

/-! ## Rule Generator

Modelled from the spec: the implementation of `association_rules`
called at app.py line 41 lives in the external `mlxtend` library and is
not part of this repository, so the Rule Generator is modelled from
spec section 4.4. -/

/-- Confidence of a rule: `support(A ∪ C) / support(A)`. -/
def confidence (txns : List (Finset String)) (A C : Finset String) : ℚ :=
  support txns (A ∪ C) / support txns A

/-- Lift of a rule: `confidence / support(C)`. -/
def liftMetric (txns : List (Finset String)) (A C : Finset String) : ℚ :=
  confidence txns A C / support txns C

/-- Modelled from the spec: the rule set of spec section 4.4 (missing
from src/, implemented by `mlxtend.association_rules`): for every
frequent itemset `F` of size at least 2, every non-empty proper subset
`A` becomes an antecedent with consequent `F \ A`, and the rule is kept
exactly when its lift meets `min_lift`. -/
def associationRules (txns : List (Finset String)) (freq : Finset (Finset String))
    (ml : ℚ) : Finset (Finset String × Finset String) :=
  ((freq.filter fun F => 2 ≤ F.card).biUnion fun F =>
      (F.powerset.filter fun A => A ≠ ∅ ∧ A ≠ F).image fun A => (A, F \ A)).filter
    fun p => ml ≤ liftMetric txns p.1 p.2

/-- One output rule, with the explicit antecedent and consequent sets,
the three metrics, and the joined display strings added by `get_rules`
(app.py lines 42-43). -/
structure RuleOut where
  antecedent : Finset String
  consequent : Finset String
  ruleSupport : ℚ
  ruleConfidence : ℚ
  ruleLift : ℚ
  antecedentStr : String
  consequentStr : String
deriving DecidableEq

/-- Display order for the join `', '.join(list(x))`: the frozenset
iteration order is modelled as the first-occurrence order of the item
universe. -/
def displayList (univ : List String) (I : Finset String) : List String :=
  univ.filter fun i => decide (i ∈ I)

/-- Assemble one output rule (app.py lines 41-43). -/
def mkRule (univ : List String) (txns : List (Finset String))
    (p : Finset String × Finset String) : RuleOut :=
  { antecedent := p.1
    consequent := p.2
    ruleSupport := support txns (p.1 ∪ p.2)
    ruleConfidence := confidence txns p.1 p.2
    ruleLift := liftMetric txns p.1 p.2
    antecedentStr := joinComma (displayList univ p.1)
    consequentStr := joinComma (displayList univ p.2) }

/-- Full rule table of `get_rules`. -/
def rulesOut (univ : List String) (txns : List (Finset String))
    (freq : Finset (Finset String)) (ml : ℚ) : Finset RuleOut :=
  (associationRules txns freq ml).image (mkRule univ txns)

/-- Smart Placement Tool lookup (app.py line 240): keep the rules whose
joined antecedent display string contains the target as a substring. -/
def smartLookup (rules : Finset RuleOut) (target : String) : Finset RuleOut :=
  rules.filter fun r => hasSub r.antecedentStr.toList target.toList = true

/-- Membership lookup on the explicit antecedent sets, the
exact-membership query of spec section 6. -/
def memberLookup (rules : Finset RuleOut) (target : String) : Finset RuleOut :=
  rules.filter fun r => target ∈ r.antecedent

/-! ## Pipeline assembly -/

/-- Modelled from the spec: the eager threshold validation of spec
section 7 (missing from src/, where both thresholds are hard-coded
constants): `min_support` outside `(0, 1]` or a negative `min_lift` is
fatal before mining begins. -/
def validateThresholds (ms ml : ℚ) : Except PipeError Unit :=
  if 0 < ms ∧ ms ≤ 1 ∧ 0 ≤ ml then Except.ok () else Except.error .invalidThreshold

/-- Embedding of `get_rules` (app.py lines 38-44) over an encoded
basket, preceded by the spec-modelled threshold validation. -/
def getRulesE (univ : List String) (txns : List (Finset String)) (ms ml : ℚ) :
    Except PipeError (Finset (Finset String × ℚ) × Finset RuleOut) :=
  match validateThresholds ms ml with
  | Except.error e => Except.error e
  | Except.ok _ =>
    let U := univ.toFinset
    Except.ok (minerOutput U txns ms,
      rulesOut univ txns (frequentItemsets U txns ms) ml)

/-- Result of one full pipeline run. -/
structure PipeResult where
  cleaned : List Rec
  basket : List (Finset String)
  itemsets : Finset (Finset String × ℚ)
  rules : Finset RuleOut

/-- Full pipeline: `get_data` followed by `get_rules`
(app.py lines 47-49). -/
def pipeline (f : Frame) (ms ml : ℚ) : Except PipeError PipeResult :=
  match getDataE f with
  | Except.error e => Except.error e
  | Except.ok recs =>
    match getRulesE (itemList recs) (basketRows recs) ms ml with
    | Except.error e => Except.error e
    | Except.ok out => Except.ok ⟨recs, basketRows recs, out.1, out.2⟩

/-! ## Concrete data used by the witnesses -/

/-- Scenario 1 of the spec: three transactions over bread and milk. -/
def txns1 : List (Finset String) := [{"bread", "milk"}, {"bread", "milk"}, {"bread"}]

/-- Item universe of Scenario 1. -/
def univ1 : Finset String := {"bread", "milk"}

/-- One raw input row with raw header spellings. -/
def demoRow (t i : String) : List (String × Option Cell) :=
  [("Transaction ID", some (Cell.s t)), ("Product Name", some (Cell.s i)),
   ("Quantity", some (Cell.n 1))]

/-- Raw frame with two transactions, each containing Milkshake and
Cookie. -/
def demoFrame : Frame :=
  ⟨["Transaction ID", "Product Name", "Quantity"],
   [demoRow "T1" "Milkshake", demoRow "T1" "Cookie",
    demoRow "T2" "Milkshake", demoRow "T2" "Cookie"]⟩

/-- Cleaned records of the demo frame. -/
def demoRecs : List Rec := cleanedRecs (renameFrame demoFrame)

/-- Basket rows of the demo frame. -/
def demoTxns : List (Finset String) := basketRows demoRecs

/-- Item universe of the demo frame, in column order. -/
def demoUniv : List String := itemList demoRecs

/-- Frequent itemsets of the demo frame at `min_support = 1/2`. -/
def demoFreq : Finset (Finset String) := frequentItemsets demoUniv.toFinset demoTxns (1/2)

/-- Rule table of the demo frame at `min_lift = 1`. -/
def demoRules : Finset RuleOut := rulesOut demoUniv demoTxns demoFreq 1

/-- The rule Milkshake to Cookie of the demo frame. -/
def demoRule : RuleOut := mkRule demoUniv demoTxns ({"Milkshake"}, {"Cookie"})

/-- Cleaned record list in which item B never has a positive quantity
sum. -/
def recsA : List Rec :=
  [⟨"T1", "A", 2⟩, ⟨"T1", "B", 0⟩, ⟨"T2", "A", 1⟩, ⟨"T2", "B", -1⟩]

/-- Raw row with a missing transaction id. -/
def rowNoTid : List (String × Option Cell) :=
  [("Transaction ID", none), ("Product Name", some (Cell.s "A")), ("Quantity", some (Cell.n 1))]

/-- Frame holding one droppable row and one complete row. -/
def frameC5 : Frame :=
  ⟨["Transaction ID", "Product Name", "Quantity"], [rowNoTid, demoRow "T1" "A"]⟩

/-- Frame with no column matching the transaction-id rule. -/
def frameNoTid : Frame := ⟨["Foo", "Product Name", "Quantity"], []⟩

/-- Well-headed frame with no rows. -/
def frameEmpty : Frame := ⟨["Transaction ID", "Product Name", "Quantity"], []⟩

/-! ## Support lemmas -/

theorem support_nonneg (txns : List (Finset String)) (I : Finset String) :
    0 ≤ support txns I := by
  unfold support
  positivity

theorem support_le_one (txns : List (Finset String)) (I : Finset String) :
    support txns I ≤ 1 := by
  unfold support
  apply div_le_one_of_le₀
  · exact_mod_cast List.countP_le_length _
  · positivity

theorem support_anti (txns : List (Finset String)) {I J : Finset String} (h : J ⊆ I) :
    support txns I ≤ support txns J := by
  unfold support
  rw [div_eq_mul_inv, div_eq_mul_inv]
  apply mul_le_mul_of_nonneg_right
  · have : txns.countP (fun t => decide (I ⊆ t)) ≤ txns.countP (fun t => decide (J ⊆ t)) := by
      apply List.countP_mono_left
      intro t _ ht
      exact decide_eq_true (h.trans (of_decide_eq_true ht))
    exact_mod_cast this
  · positivity

theorem support_eq_zero_of_not_mem (txns : List (Finset String)) {I : Finset String}
    {i : String} (hi : i ∈ I) (h : ∀ t ∈ txns, i ∉ t) : support txns I = 0 := by
  unfold support
  have : txns.countP (fun t => decide (I ⊆ t)) = 0 := by
    apply List.countP_eq_zero.mpr
    intro t ht hsub
    exact absurd ((of_decide_eq_true hsub) hi) (h t ht)
  rw [this]
  simp

/-! ## Miner characterization -/

theorem mem_aprioriLevel (U : Finset String) (txns : List (Finset String)) (ms : ℚ) :
    ∀ (k : Nat) (I : Finset String), I ∈ aprioriLevel U txns ms (k + 1) ↔
      I ⊆ U ∧ I.card = k + 1 ∧ ms ≤ support txns I := by
  intro k
  induction k with
  | zero =>
    intro I
    simp only [aprioriLevel, Finset.mem_filter, Finset.mem_image]
    constructor
    · rintro ⟨⟨x, hx, rfl⟩, hsup⟩
      exact ⟨Finset.singleton_subset_iff.mpr hx, Finset.card_singleton x, hsup⟩
    · rintro ⟨hsub, hcard, hsup⟩
      obtain ⟨x, rfl⟩ := Finset.card_eq_one.mp hcard
      exact ⟨⟨x, Finset.singleton_subset_iff.mp hsub, rfl⟩, hsup⟩
  | succ k ih =>
    intro I
    constructor
    · intro hI
      simp only [aprioriLevel, Finset.mem_filter, Finset.mem_biUnion, Finset.mem_image,
        Finset.mem_sdiff] at hI
      obtain ⟨⟨⟨A, hA, x, ⟨hxU, hxA⟩, rfl⟩, _⟩, hsup⟩ := hI
      obtain ⟨hAU, hAcard, _⟩ := (ih A).mp hA
      refine ⟨Finset.insert_subset hxU hAU, ?_, hsup⟩
      rw [Finset.card_insert_of_not_mem hxA, hAcard]
    · rintro ⟨hsub, hcard, hsup⟩
      have hne : I.Nonempty := Finset.card_pos.mp (by omega)
      obtain ⟨x, hx⟩ := hne
      have hA : I.erase x ∈ aprioriLevel U txns ms (k + 1) := by
        refine (ih _).mpr ⟨(Finset.erase_subset x I).trans hsub, ?_, ?_⟩
        · rw [Finset.card_erase_of_mem hx, hcard]
          omega
        · exact le_trans hsup (support_anti txns (Finset.erase_subset x I))
      simp only [aprioriLevel, Finset.mem_filter, Finset.mem_biUnion, Finset.mem_image,
        Finset.mem_sdiff]
      refine ⟨⟨⟨I.erase x, hA, x, ⟨hsub hx, Finset.not_mem_erase x I⟩,
        Finset.insert_erase hx⟩, ?_⟩, hsup⟩
      intro S hS
      simp only [Finset.mem_filter, Finset.mem_powerset] at hS
      exact (ih S).mpr ⟨hS.1.trans hsub, hS.2, le_trans hsup (support_anti txns hS.1)⟩

theorem mem_frequentItemsets (U : Finset String) (txns : List (Finset String)) (ms : ℚ)
    (I : Finset String) :
    I ∈ frequentItemsets U txns ms ↔ I ⊆ U ∧ I.Nonempty ∧ ms ≤ support txns I := by
  unfold frequentItemsets
  simp only [Finset.mem_biUnion, Finset.mem_range]
  constructor
  · rintro ⟨k, _, hI⟩
    obtain ⟨hsub, hcard, hsup⟩ := (mem_aprioriLevel U txns ms k I).mp hI
    exact ⟨hsub, Finset.card_pos.mp (by omega), hsup⟩
  · rintro ⟨hsub, hne, hsup⟩
    have hpos : 0 < I.card := Finset.card_pos.mpr hne
    have hle : I.card ≤ U.card := Finset.card_le_card hsub
    exact ⟨I.card - 1, by omega,
      (mem_aprioriLevel U txns ms (I.card - 1) I).mpr ⟨hsub, by omega, hsup⟩⟩

/-! ## Rule-generator characterization -/

theorem mem_associationRules (txns : List (Finset String)) (freq : Finset (Finset String))
    (ml : ℚ) (A C : Finset String) :
    (A, C) ∈ associationRules txns freq ml ↔
      ∃ F ∈ freq, 2 ≤ F.card ∧ A ⊆ F ∧ A ≠ ∅ ∧ A ≠ F ∧ C = F \ A ∧
        ml ≤ liftMetric txns A C := by
  unfold associationRules
  simp only [Finset.mem_filter, Finset.mem_biUnion, Finset.mem_image, Finset.mem_powerset]
  constructor
  · rintro ⟨⟨F, ⟨hFf, hFc⟩, A', ⟨hA'F, hne, hneF⟩, heq⟩, hlift⟩
    injection heq with h1 h2
    subst h1
    subst h2
    exact ⟨F, hFf, hFc, hA'F, hne, hneF, rfl, hlift⟩
  · rintro ⟨F, hFf, hFc, hAF, hne, hneF, rfl, hlift⟩
    exact ⟨⟨F, ⟨hFf, hFc⟩, A, ⟨hAF, hne, hneF⟩, rfl⟩, hlift⟩

theorem rule_pair_props (txns : List (Finset String)) (freq : Finset (Finset String))
    (ml : ℚ) (A C : Finset String)
    (h : (A, C) ∈ associationRules txns freq ml) :
    A ≠ ∅ ∧ C ≠ ∅ ∧ Disjoint A C ∧ A ∪ C ∈ freq := by
  obtain ⟨F, hFf, _, hAF, hne, hneF, rfl, _⟩ := (mem_associationRules txns freq ml A C).mp h
  have hCne : (F \ A).Nonempty := by
    rw [Finset.sdiff_nonempty]
    intro hFA
    exact hneF (Finset.Subset.antisymm hAF hFA)
  refine ⟨hne, Finset.nonempty_iff_ne_empty.mp hCne, Finset.disjoint_sdiff, ?_⟩
  rw [Finset.union_sdiff_of_subset hAF]
  exact hFf

/-! ## Encoder lemmas -/

theorem sumQty_eq_zero_of_absent (rs : List Rec) (t i : String)
    (h : ∀ r ∈ rs, ¬(r.tid = t ∧ r.item = i)) : sumQty rs t i = 0 := by
  unfold sumQty
  have : rs.filter (fun r => r.tid == t && r.item == i) = [] := by
    apply List.filter_eq_nil_iff.mpr
    intro r hr
    simp only [Bool.and_eq_true, beq_iff_eq]
    intro hcon
    exact h r hr ⟨hcon.1, hcon.2⟩
  rw [this]
  rfl

theorem unstackCell_eq_sumQty (rs : List Rec) (t i : String) :
    unstackCell rs t i = sumQty rs t i := by
  unfold unstackCell
  rcases hfind : (groupedSums rs).find? (fun p => p.1 == (t, i)) with _ | p
  · simp only [hfind]
    have hall := List.find?_eq_none.mp hfind
    refine (sumQty_eq_zero_of_absent rs t i ?_).symm
    intro r hr hri
    have hkey : ((t, i), sumQty rs t i) ∈ groupedSums rs := by
      unfold groupedSums
      refine List.mem_map.mpr ⟨(t, i), ?_, rfl⟩
      unfold groupKeys
      exact List.mem_dedup.mpr (List.mem_map.mpr ⟨r, hr, by rw [hri.1, hri.2]⟩)
    have := hall _ hkey
    simp at this
  · simp only [hfind]
    have hb := List.find?_some hfind
    simp only [beq_iff_eq] at hb
    have hp1 : p.1 = (t, i) := hb
    have hmem := List.mem_of_find?_eq_some hfind
    unfold groupedSums at hmem
    obtain ⟨k, _, hk⟩ := List.mem_map.mp hmem
    subst hk
    simp only at hp1
    subst hp1
    rfl

theorem basketCell_eq_one_iff (rs : List Rec) (t i : String) :
    basketCell rs t i = 1 ↔ 0 < sumQty rs t i := by
  unfold basketCell
  rw [unstackCell_eq_sumQty]
  split
  · simp_all
  · simp_all

theorem mem_basketRowF (rs : List Rec) (t i : String) :
    i ∈ basketRowF rs t ↔ i ∈ itemList rs ∧ basketCell rs t i = 1 := by
  unfold basketRowF
  rw [List.mem_toFinset, List.mem_filter]
  simp

/-! ## Emptiness lemmas -/

theorem frequentItemsets_empty_univ (txns : List (Finset String)) (ms : ℚ) :
    frequentItemsets ∅ txns ms = ∅ := by
  unfold frequentItemsets
  simp

theorem rulesOut_empty_freq (univ : List String) (txns : List (Finset String)) (ml : ℚ) :
    rulesOut univ txns ∅ ml = ∅ := by
  unfold rulesOut associationRules
  simp

/-! ## Claim theorems -/

/-- C1: for every boolean basket matrix and every `min_support` in
`(0, 1]`, the Itemset Miner returns exactly the itemsets (singletons
included) whose support is at least `min_support`, each annotated with
its exact support value, and nothing else. -/
theorem C1_miner_exact (U : Finset String) (txns : List (Finset String)) (ms : ℚ)
    (hms0 : 0 < ms) (hms1 : ms ≤ 1) (I : Finset String) (s : ℚ) :
    (I, s) ∈ minerOutput U txns ms ↔
      I ⊆ U ∧ I ≠ ∅ ∧ ms ≤ support txns I ∧ s = support txns I := by
  unfold minerOutput
  rw [Finset.mem_image]
  constructor
  · rintro ⟨J, hJ, heq⟩
    injection heq with h1 h2
    subst h1
    subst h2
    obtain ⟨hsub, hne, hsup⟩ := (mem_frequentItemsets U txns ms J).mp hJ
    exact ⟨hsub, Finset.nonempty_iff_ne_empty.mp hne, hsup, rfl⟩
  · rintro ⟨hsub, hne, hsup, rfl⟩
    exact ⟨I, (mem_frequentItemsets U txns ms I).mpr
      ⟨hsub, Finset.nonempty_iff_ne_empty.mpr hne, hsup⟩, rfl⟩

theorem C1_witness :
    (({"bread", "milk"} : Finset String), (2 : ℚ)/3) ∈ minerOutput univ1 txns1 (1/2) := by
  apply (C1_miner_exact univ1 txns1 (1/2) (by norm_num) (by norm_num)
    {"bread", "milk"} (2/3)).mpr
  refine ⟨by decide, by decide, ?_, ?_⟩
  · rw [show support txns1 {"bread", "milk"} = 2/3 from rfl]
    norm_num
  · exact (show support txns1 {"bread", "milk"} = 2/3 from rfl).symm

/-- C2: for every frequent itemset `F` with at least two items, the
Rule Generator enumerates every non-empty proper subset `A` as
antecedent with consequent `F \ A`, computes confidence
`support F / support A` and lift `confidence / support C` from the
supports of the Miner, and keeps exactly the rules with lift at least
`min_lift`; every kept rule has a non-empty antecedent and consequent,
they are disjoint, and their union is a frequent itemset. -/
theorem C2_rule_generator (U : Finset String) (txns : List (Finset String)) (ms ml : ℚ)
    (A C : Finset String) :
    ((A, C) ∈ associationRules txns (frequentItemsets U txns ms) ml ↔
      ∃ F ∈ frequentItemsets U txns ms, 2 ≤ F.card ∧ A ⊆ F ∧ A ≠ ∅ ∧ A ≠ F ∧ C = F \ A ∧
        ml ≤ (support txns F / support txns A) / support txns C) ∧
    ((A, C) ∈ associationRules txns (frequentItemsets U txns ms) ml →
      A ≠ ∅ ∧ C ≠ ∅ ∧ Disjoint A C ∧ A ∪ C ∈ frequentItemsets U txns ms) := by
  constructor
  · rw [mem_associationRules]
    constructor
    · rintro ⟨F, hFf, hc, hAF, hne, hneF, rfl, hlift⟩
      refine ⟨F, hFf, hc, hAF, hne, hneF, rfl, ?_⟩
      unfold liftMetric confidence at hlift
      rwa [Finset.union_sdiff_of_subset hAF] at hlift
    · rintro ⟨F, hFf, hc, hAF, hne, hneF, rfl, hlift⟩
      refine ⟨F, hFf, hc, hAF, hne, hneF, rfl, ?_⟩
      unfold liftMetric confidence
      rwa [Finset.union_sdiff_of_subset hAF]
  · exact rule_pair_props txns _ ml A C

theorem C2_witness :
    ((({"milk"} : Finset String), ({"bread"} : Finset String)) ∈
      associationRules txns1 (frequentItemsets univ1 txns1 (1/2)) 1) ∧
    ({"milk"} : Finset String) ≠ ∅ ∧ ({"bread"} : Finset String) ≠ ∅ ∧
    Disjoint ({"milk"} : Finset String) ({"bread"} : Finset String) ∧
    ({"milk"} : Finset String) ∪ {"bread"} ∈ frequentItemsets univ1 txns1 (1/2) := by
  have h := C2_rule_generator univ1 txns1 (1/2) 1 {"milk"} {"bread"}
  have hmem : (({"milk"} : Finset String), ({"bread"} : Finset String)) ∈
      associationRules txns1 (frequentItemsets univ1 txns1 (1/2)) 1 := by
    apply h.1.mpr
    refine ⟨{"bread", "milk"}, ?_, by decide, by decide, by decide, by decide, by decide, ?_⟩
    · exact (mem_frequentItemsets univ1 txns1 (1/2) _).mpr ⟨by decide, ⟨"bread", by decide⟩, by
        rw [show support txns1 {"bread", "milk"} = 2/3 from rfl]
        norm_num⟩
    · rw [show support txns1 {"bread", "milk"} = 2/3 from rfl,
        show support txns1 {"milk"} = 2/3 from rfl,
        show support txns1 {"bread"} = 3/3 from rfl]
      norm_num
  exact ⟨hmem, h.2 hmem⟩

/-- C3: the Basket Encoder groups records by (transaction, item), sums
quantities within a group, emits presence 1 exactly when the summed
quantity is strictly positive and 0 otherwise; absent pairs yield an
explicit 0 cell, and each basket row ranges over the full observed item
universe. -/
theorem C3_basket_encoder (rs : List Rec) (t i : String) :
    (basketCell rs t i = 1 ↔ 0 < sumQty rs t i) ∧
    (basketCell rs t i = 0 ↔ ¬0 < sumQty rs t i) ∧
    ((∀ r ∈ rs, ¬(r.tid = t ∧ r.item = i)) → basketCell rs t i = 0) ∧
    (i ∈ basketRowF rs t ↔ i ∈ itemList rs ∧ basketCell rs t i = 1) := by
  refine ⟨basketCell_eq_one_iff rs t i, ?_, ?_, mem_basketRowF rs t i⟩
  · unfold basketCell
    rw [unstackCell_eq_sumQty]
    split <;> simp_all
  · intro h
    unfold basketCell
    rw [unstackCell_eq_sumQty, sumQty_eq_zero_of_absent rs t i h]
    simp

theorem C3_witness :
    basketCell recsA "T1" "B" = 0 ∧ basketCell recsA "T1" "A" = 1 := by
  have h1 := C3_basket_encoder recsA "T1" "B"
  have h2 := C3_basket_encoder recsA "T1" "A"
  exact ⟨h1.2.1.mpr (by decide), h2.1.mpr (by decide)⟩

/-- C4: support always lies in `[0, 1]`, is antitone under itemset
inclusion, and every non-empty subset of a frequent itemset is again
frequent. -/
theorem C4_support_bounds_antimono (U : Finset String) (txns : List (Finset String))
    (ms : ℚ) (I J : Finset String) :
    (0 ≤ support txns I ∧ support txns I ≤ 1) ∧
    (J ⊆ I → support txns I ≤ support txns J) ∧
    (I ∈ frequentItemsets U txns ms → J ⊆ I → J ≠ ∅ →
      J ∈ frequentItemsets U txns ms) := by
  refine ⟨⟨support_nonneg txns I, support_le_one txns I⟩,
    fun h => support_anti txns h, fun hI hJI hJne => ?_⟩
  obtain ⟨hsub, _, hsup⟩ := (mem_frequentItemsets U txns ms I).mp hI
  exact (mem_frequentItemsets U txns ms J).mpr ⟨hJI.trans hsub,
    Finset.nonempty_iff_ne_empty.mpr hJne, le_trans hsup (support_anti txns hJI)⟩

theorem C4_witness :
    support txns1 {"bread", "milk"} ≤ support txns1 {"milk"} ∧
    ({"milk"} : Finset String) ∈ frequentItemsets univ1 txns1 (1/2) := by
  have h := C4_support_bounds_antimono univ1 txns1 (1/2) {"bread", "milk"} {"milk"}
  have hI : ({"bread", "milk"} : Finset String) ∈ frequentItemsets univ1 txns1 (1/2) :=
    (mem_frequentItemsets univ1 txns1 (1/2) _).mpr ⟨by decide, ⟨"bread", by decide⟩, by
      rw [show support txns1 {"bread", "milk"} = 2/3 from rfl]
      norm_num⟩
  exact ⟨h.2.1 (by decide), h.2.2 hI (by decide) (by decide)⟩

/-- C5: the Transaction Normalizer maps headers to the canonical schema
by case-insensitive substring matching on trimmed lower-cased headers,
leaves unrecognized headers unchanged, silently drops every record
whose transaction id or item name is missing after mapping (no error
for dropped rows), and only complete records reach the cleaned set. -/
theorem C5_normalizer (col : String) (f : Frame) :
    (hasTok (normHeader col) "transaction" = true →
      hasTok (normHeader col) "id" = true →
      (hasTok (normHeader col) "product" && hasTok (normHeader col) "name") = false →
      (hasTok (normHeader col) "total" && hasTok (normHeader col) "value") = false →
      renameCol col = "Transaction_ID") ∧
    (hasTok (normHeader col) "product" = true →
      hasTok (normHeader col) "name" = true →
      (hasTok (normHeader col) "total" && hasTok (normHeader col) "value") = false →
      renameCol col = "Product_Name") ∧
    ((hasTok (normHeader col) "total" && hasTok (normHeader col) "value") = false →
      (hasTok (normHeader col) "product" && hasTok (normHeader col) "name") = false →
      (hasTok (normHeader col) "transaction" && hasTok (normHeader col) "id") = false →
      hasTok (normHeader col) "category" = false →
      (hasTok (normHeader col) "day" && hasTok (normHeader col) "week") = false →
      renameCol col = col) ∧
    (∀ row ∈ f.rows,
      getCell (renameRow row) "Transaction_ID" = none ∨
        getCell (renameRow row) "Product_Name" = none →
      extractRec (renameRow row) = none) ∧
    (∀ r ∈ cleanedRecs (renameFrame f), ∃ row ∈ f.rows, extractRec (renameRow row) = some r) ∧
    ("Transaction_ID" ∈ (renameFrame f).cols → "Product_Name" ∈ (renameFrame f).cols →
      "Quantity" ∈ (renameFrame f).cols →
      getDataE f = Except.ok (cleanedRecs (renameFrame f))) := by
  refine ⟨?_, ?_, ?_, ?_, ?_, ?_⟩
  · intro h1 h2 h3 h4
    simp [renameCol, h1, h2, h3, h4]
  · intro h1 h2 h3
    simp [renameCol, h1, h2, h3]
  · intro h1 h2 h3 h4 h5
    simp [renameCol, h1, h2, h3, h4, h5]
  · intro row _ h
    unfold extractRec
    rcases h with h | h
    · rw [h]
    · rcases hT : getCell (renameRow row) "Transaction_ID" with _ | tv <;> simp [hT, h]
  · intro r hr
    unfold cleanedRecs at hr
    simp only [renameFrame] at hr
    obtain ⟨row2, hrow2, hex⟩ := List.mem_filterMap.mp hr
    obtain ⟨row, hrow, rfl⟩ := List.mem_map.mp hrow2
    exact ⟨row, hrow, hex⟩
  · intro hT hP hQ
    simp [getDataE, hT, hP, hQ]

theorem C5_witness :
    renameCol "Transaction ID" = "Transaction_ID" ∧
    extractRec (renameRow rowNoTid) = none := by
  have h := C5_normalizer "Transaction ID" frameC5
  exact ⟨h.1 (by decide) (by decide) (by decide) (by decide),
    h.2.2.2.1 rowNoTid (by decide) (Or.inl (by decide))⟩

/-- C6: evaluation of the Smart Placement lookup of app.py line 240 at
a concrete dataset: the substring lookup for the item `Milk` returns
the rule whose antecedent is the set containing only `Milkshake`,
although `Milk` is not a member of that antecedent set — the lookup is
substring matching on the joined display string, not an
exact-membership query. -/
theorem C6_substring_lookup_bug :
    demoRule ∈ smartLookup demoRules "Milk" ∧ "Milk" ∉ demoRule.antecedent := by
  constructor
  · unfold smartLookup
    rw [Finset.mem_filter]
    refine ⟨?_, rfl⟩
    unfold demoRules rulesOut
    apply Finset.mem_image.mpr
    refine ⟨({"Milkshake"}, {"Cookie"}), ?_, rfl⟩
    apply (mem_associationRules demoTxns demoFreq 1 {"Milkshake"} {"Cookie"}).mpr
    refine ⟨{"Milkshake", "Cookie"}, ?_, by decide, by decide, by decide, by decide,
      by decide, ?_⟩
    · apply (mem_frequentItemsets demoUniv.toFinset demoTxns (1/2) _).mpr
      refine ⟨by decide, ⟨"Milkshake", by decide⟩, ?_⟩
      rw [show support demoTxns {"Milkshake", "Cookie"} = 2/2 from rfl]
      norm_num
    · unfold liftMetric confidence
      rw [show support demoTxns ({"Milkshake"} ∪ {"Cookie"}) = 2/2 from rfl,
        show support demoTxns {"Milkshake"} = 2/2 from rfl,
        show support demoTxns {"Cookie"} = 2/2 from rfl]
      norm_num
  · decide

/-- C7: `min_support` outside `(0, 1]` or a negative `min_lift` makes
the pipeline fail with the threshold-validation error before any mining
output is produced, and valid thresholds never produce that error. -/
theorem C7_threshold_validation (univ : List String) (txns : List (Finset String))
    (ms ml : ℚ) :
    ((¬(0 < ms ∧ ms ≤ 1) ∨ ml < 0) →
      getRulesE univ txns ms ml = Except.error PipeError.invalidThreshold) ∧
    (0 < ms → ms ≤ 1 → 0 ≤ ml → ∃ out, getRulesE univ txns ms ml = Except.ok out) := by
  constructor
  · intro h
    have hv : ¬(0 < ms ∧ ms ≤ 1 ∧ 0 ≤ ml) := by
      rintro ⟨h1, h2, h3⟩
      rcases h with h | h
      · exact h ⟨h1, h2⟩
      · exact absurd h3 (not_le.mpr h)
    unfold getRulesE validateThresholds
    rw [if_neg hv]
  · intro h1 h2 h3
    unfold getRulesE validateThresholds
    rw [if_pos ⟨h1, h2, h3⟩]
    exact ⟨_, rfl⟩

theorem C7_witness :
    getRulesE [] [] 2 1 = Except.error PipeError.invalidThreshold ∧
    ∃ out, getRulesE [] [] (1/2) 1 = Except.ok out :=
  ⟨(C7_threshold_validation [] [] 2 1).1 (Or.inl (by norm_num)),
    (C7_threshold_validation [] [] (1/2) 1).2 (by norm_num) (by norm_num) (by norm_num)⟩

/-- C8: when no input column is mapped to the transaction-id column (or
none to the item-name column), the pipeline fails with a fatal schema
error naming the missing column, and an error result excludes any
partial basket output. -/
theorem C8_schema_error (f : Frame) :
    ((∀ c ∈ f.cols, renameCol c ≠ "Transaction_ID") →
      getDataE f = Except.error (PipeError.inputSchema "Transaction_ID")) ∧
    ("Transaction_ID" ∈ (renameFrame f).cols →
      (∀ c ∈ f.cols, renameCol c ≠ "Product_Name") →
      getDataE f = Except.error (PipeError.inputSchema "Product_Name")) ∧
    (∀ e out, getDataE f = Except.error e → getDataE f ≠ Except.ok out) := by
  refine ⟨?_, ?_, ?_⟩
  · intro h
    have hT : "Transaction_ID" ∉ (renameFrame f).cols := by
      simp only [renameFrame, List.mem_map]
      rintro ⟨c, hc, hren⟩
      exact h c hc hren
    simp [getDataE, hT]
  · intro hT h
    have hP : "Product_Name" ∉ (renameFrame f).cols := by
      simp only [renameFrame, List.mem_map]
      rintro ⟨c, hc, hren⟩
      exact h c hc hren
    simp [getDataE, hT, hP]
  · intro e out he hcon
    rw [he] at hcon
    exact Except.noConfusion hcon

theorem C8_witness :
    getDataE frameNoTid = Except.error (PipeError.inputSchema "Transaction_ID") :=
  (C8_schema_error frameNoTid).1 (by decide)

/-- C9: an empty input record sequence — and likewise an input whose
cleaning leaves zero records — yields an empty basket matrix, an empty
frequent-itemset set and an empty rule set without any error, and an
empty frequent-itemset set always yields an empty rule set. -/
theorem C9_empty_result (f : Frame) (ms ml : ℚ)
    (hT : "Transaction_ID" ∈ (renameFrame f).cols)
    (hP : "Product_Name" ∈ (renameFrame f).cols)
    (hQ : "Quantity" ∈ (renameFrame f).cols)
    (hms0 : 0 < ms) (hms1 : ms ≤ 1) (hml : 0 ≤ ml) :
    (f.rows = [] → pipeline f ms ml = Except.ok ⟨[], [], ∅, ∅⟩) ∧
    (cleanedRecs (renameFrame f) = [] → pipeline f ms ml = Except.ok ⟨[], [], ∅, ∅⟩) ∧
    (∀ univ txns, rulesOut univ txns (∅ : Finset (Finset String)) ml = ∅) := by
  have hok : getDataE f = Except.ok (cleanedRecs (renameFrame f)) := by
    simp [getDataE, hT, hP, hQ]
  have hmain : cleanedRecs (renameFrame f) = [] →
      pipeline f ms ml = Except.ok ⟨[], [], ∅, ∅⟩ := by
    intro hclean
    unfold pipeline
    rw [hok, hclean]
    unfold getRulesE validateThresholds
    rw [if_pos ⟨hms0, hms1, hml⟩]
    rfl
  refine ⟨?_, hmain, fun univ txns => rulesOut_empty_freq univ txns ml⟩
  intro hrows
  apply hmain
  unfold cleanedRecs renameFrame
  rw [hrows]
  rfl

theorem C9_witness :
    pipeline frameEmpty (1/2) 1 = Except.ok ⟨[], [], ∅, ∅⟩ :=
  (C9_empty_result frameEmpty (1/2) 1 (by decide) (by decide) (by decide)
    (by norm_num) (by norm_num) (by norm_num)).1 rfl

/-- C10: every basket cell is 0 or 1, each distinct transaction id keys
exactly one row, a group whose quantity sum is not positive is encoded
as 0, and an item whose quantity sum is non-positive in every
transaction still occupies a column but appears in no frequent itemset
and in no rule. -/
theorem C10_matrix_invariants (rs : List Rec) (ms ml : ℚ) (i : String) :
    (∀ t j, basketCell rs t j = 0 ∨ basketCell rs t j = 1) ∧
    (tidList rs).Nodup ∧
    (∀ t j, sumQty rs t j ≤ 0 → basketCell rs t j = 0) ∧
    (i ∈ itemList rs → (∀ t ∈ tidList rs, sumQty rs t i ≤ 0) → 0 < ms →
      (∀ I ∈ frequentItemsets (itemList rs).toFinset (basketRows rs) ms, i ∉ I) ∧
      ∀ r ∈ rulesOut (itemList rs) (basketRows rs)
          (frequentItemsets (itemList rs).toFinset (basketRows rs) ms) ml,
        i ∉ r.antecedent ∧ i ∉ r.consequent) := by
  refine ⟨?_, List.nodup_dedup _, ?_, ?_⟩
  · intro t j
    unfold basketCell
    split
    · right
      rfl
    · left
      rfl
  · intro t j h
    unfold basketCell
    rw [unstackCell_eq_sumQty, if_neg (not_lt.mpr h)]
  · intro _ hle hms
    have hnotrow : ∀ T ∈ basketRows rs, i ∉ T := by
      intro T hT hi
      obtain ⟨t, ht, rfl⟩ := List.mem_map.mp hT
      obtain ⟨_, hcell⟩ := (mem_basketRowF rs t i).mp hi
      have h0 : basketCell rs t i = 0 := by
        unfold basketCell
        rw [unstackCell_eq_sumQty, if_neg (not_lt.mpr (hle t ht))]
      rw [h0] at hcell
      exact Nat.noConfusion hcell
    have hfreq : ∀ I ∈ frequentItemsets (itemList rs).toFinset (basketRows rs) ms, i ∉ I := by
      intro I hI hi
      obtain ⟨_, _, hsup⟩ := (mem_frequentItemsets _ _ _ I).mp hI
      rw [support_eq_zero_of_not_mem (basketRows rs) hi hnotrow] at hsup
      exact absurd (lt_of_lt_of_le hms hsup) (lt_irrefl 0)
    refine ⟨hfreq, ?_⟩
    intro r hr
    unfold rulesOut at hr
    obtain ⟨p, hp, rfl⟩ := Finset.mem_image.mp hr
    obtain ⟨A, C⟩ := p
    obtain ⟨F, hFf, _, hAF, _, _, hC, _⟩ := (mem_associationRules _ _ _ A C).mp hp
    subst hC
    constructor
    · intro hi
      exact hfreq F hFf (hAF hi)
    · intro hi
      exact hfreq F hFf (Finset.sdiff_subset hi)

theorem C10_witness :
    (∀ I ∈ frequentItemsets (itemList recsA).toFinset (basketRows recsA) (1/2), "B" ∉ I) ∧
    ∀ r ∈ rulesOut (itemList recsA) (basketRows recsA)
        (frequentItemsets (itemList recsA).toFinset (basketRows recsA) (1/2)) 1,
      "B" ∉ r.antecedent ∧ "B" ∉ r.consequent :=
  (C10_matrix_invariants recsA (1/2) 1 "B").2.2.2 (by decide) (by decide) (by norm_num)

end SwiftCart
